import Mathlib

/-!
Shallow embedding of `src/libnnbenchmark/run_tflite.cpp` (AOSP MLTS benchmark).

The interpreter (TFLite) is treated as an environment oracle: per-invocation
success, elapsed seconds, and the output tensor contents after each invocation
are fields of `BenchEnv`, indexed by a global invocation counter.  Machine
floats are idealised as rationals; `FATAL` (log + assert, terminating the
process) is modelled as `Except.error` of a `Fatal` condition.
-/

namespace RunTflite

/-- TFLite tensor element types distinguished by the source: the two supported
kinds, and everything else (the `default` switch arms). -/
inductive TfLiteType where
  | uint8
  | float32
  | other
deriving DecidableEq

/-- Conditions on which the source invokes the `FATAL` macro (android fatal log
followed by `assert(false)`): the process terminates. -/
inductive Fatal where
  | unableToOpenLibandroid
  | wrongOutputSize
  | unsupportedOutputType
  | emptyInOutVector
deriving DecidableEq

/-- The pair of dynamically resolved tracing entry points.  A `dlsym` result is
an `Option Nat` address; `none` models a null pointer. -/
structure TraceFunc where
  beginSection : Option Nat
  endSection : Option Nat
deriving DecidableEq

/-- The dynamic-linking environment seen by `setupTraceFunc`: whether
`dlopen` of libandroid.so yields a handle, and the `dlsym` results for the two
tracing symbols. -/
structure DlEnv where
  libandroidHandle : Bool
  beginSectionSym : Option Nat
  endSectionSym : Option Nat
deriving DecidableEq

/-- `setupTraceFunc` (run_tflite.cpp:50): if `dlopen` of libandroid.so fails,
`FATAL` fires (process asserts); otherwise the two `dlsym` results are stored
with no null check at all. -/
def setupTraceFunc (env : DlEnv) : Except Fatal TraceFunc :=
  if env.libandroidHandle = false then
    Except.error Fatal.unableToOpenLibandroid
  else
    Except.ok ⟨env.beginSectionSym, env.endSectionSym⟩

/-- A raw byte buffer together with its reinterpretation as 4-byte floats
(the source casts `const uint8_t*` to `const float*` for the float path).
Floats are idealised as rationals. -/
structure ByteBuffer where
  u8 : List Nat
  f32 : List ℚ
deriving DecidableEq

/-- A tensor as the embedding sees it: element type, byte count, and its byte /
float views. -/
structure Tensor where
  ttype : TfLiteType
  bytes : Nat
  u8 : List Nat
  f32 : List ℚ
deriving DecidableEq

/-- Modelled from the spec: `InferenceResult` is declared in run_tflite.h,
which is not among the sources; the spec describes one record per executed
step with elapsed seconds, the two error fields, captured output bytes, the
originating sequence index and the entry index (matching the aggregate
initialiser at run_tflite.cpp:253). -/
structure InferenceResult where
  inferenceTime : ℚ
  meanSquareError : ℚ
  maxSingleError : ℚ
  inferenceOutput : List Nat
  inputOutputSequenceIndex : Nat
  inputOutputIndex : Nat
deriving DecidableEq, Inhabited

/-- Modelled from the spec: `InferenceInOut` is declared in run_tflite.h,
which is not among the sources; per the spec it carries either raw input bytes
or a fill callback (whose success we record as `createInputOk`), plus the
expected output bytes with their length. -/
structure InferenceInOut where
  input : Option (List Nat)
  input_size : Nat
  output : ByteBuffer
  output_size : Nat
  createInputOk : Bool
deriving DecidableEq

/-- Modelled from the spec: the flag constants live in run_tflite.h (not among
the sources); the spec describes the flags as a bitmask of two independent
toggles, so they are two distinct bits. -/
def FLAG_IGNORE_GOLDEN_OUTPUT : Nat := 1

/-- Modelled from the spec: second independent toggle bit of the flag
bitmask, see `FLAG_IGNORE_GOLDEN_OUTPUT`. -/
def FLAG_DISCARD_INFERENCE_OUTPUT : Nat := 2

/-- `BenchmarkModel::setInput` (run_tflite.cpp:110): supported input tensor
types are copied with `memcpy` and the call returns true; any other type logs
an error and returns false.  The copy itself has no observable effect in the
embedding (the input buffer is part of the opaque interpreter). -/
def setInput (inputType : TfLiteType) (_dataPtr : List Nat) (_length : Nat) : Bool :=
  match inputType with
  | TfLiteType.uint8 => true
  | TfLiteType.float32 => true
  | TfLiteType.other => false

/-- `BenchmarkModel::saveInferenceOutput` (run_tflite.cpp:128): appends the
output tensor's `bytes` raw bytes to the result's captured-output vector. -/
def saveInferenceOutput (output_tensor : Tensor) (result : InferenceResult) :
    InferenceResult :=
  { result with inferenceOutput :=
      result.inferenceOutput ++
        (List.range output_tensor.bytes).map (fun i => output_tensor.u8.getD i 0) }

/-- The error-accumulation loop shared by both arms of the switch in
`getOutputError` (run_tflite.cpp:153 and 164): for each produced/expected
pair, `err = produced - expected`; `max_error` is updated only when
`err > max_error`; `err_sum` accumulates `err * err`. -/
def accumulateError : ℚ → ℚ → List (ℚ × ℚ) → ℚ × ℚ
  | err_sum, max_error, [] => (err_sum, max_error)
  | err_sum, max_error, p :: rest =>
    let err := p.1 - p.2
    let max_error' := if err > max_error then err else max_error
    accumulateError (err_sum + err * err) max_error' rest

/-- `BenchmarkModel::getOutputError` (run_tflite.cpp:138): `FATAL` when the
output tensor's byte count differs from the expected length; then a switch on
the element type — uint8 iterates over `bytes` byte pairs, float32 over
`bytes / 4` float pairs, any other type is `FATAL`.  On success the result's
`meanSquareError` and `maxSingleError` fields are overwritten. -/
def getOutputError (output_tensor : Tensor) (expected_data : ByteBuffer)
    (length : Nat) (result : InferenceResult) : Except Fatal InferenceResult :=
  if output_tensor.bytes ≠ length then Except.error Fatal.wrongOutputSize
  else
    match output_tensor.ttype with
    | TfLiteType.uint8 =>
      let pairs := (List.range output_tensor.bytes).map
        (fun i => ((output_tensor.u8.getD i 0 : ℚ), (expected_data.u8.getD i 0 : ℚ)))
      let acc := accumulateError 0 0 pairs
      Except.ok { result with
        meanSquareError := acc.1 / (output_tensor.bytes : ℚ),
        maxSingleError := acc.2 }
    | TfLiteType.float32 =>
      let elements_count := output_tensor.bytes / 4
      let pairs := (List.range elements_count).map
        (fun i => (output_tensor.f32.getD i 0, expected_data.f32.getD i 0))
      let acc := accumulateError 0 0 pairs
      Except.ok { result with
        meanSquareError := acc.1 / (elements_count : ℚ),
        maxSingleError := acc.2 }
    | TfLiteType.other => Except.error Fatal.unsupportedOutputType

/-- Environment oracle for the opaque interpreter inside
`BenchmarkModel::benchmark`: invocation success, elapsed seconds and output
tensor state are indexed by the global invocation counter; `resetOk` is the
(ignored) result of `resetStates`, indexed by the outer step. -/
structure BenchEnv where
  inputType : TfLiteType
  resetOk : Nat → Bool
  runOk : Nat → Bool
  invTime : Nat → ℚ
  outTensor : Nat → Tensor

/-- The mutable state threaded through the benchmark loop: global invocation
counter, the caller's `results` vector, and `inferenceTotal`. -/
structure LoopState where
  counter : Nat
  results : List InferenceResult
  inferenceTotal : ℚ
deriving DecidableEq

/-- Inner loop of `BenchmarkModel::benchmark` (run_tflite.cpp:225-263): one
sequence, entry by entry.  Raw input goes through `setInput` whose Bool result
the source drops; a missing raw input invokes the fill callback and a callback
failure returns false from the whole benchmark.  An invocation failure also
returns false.  `getOutputError` runs unless `FLAG_IGNORE_GOLDEN_OUTPUT` is
set (and can hit `FATAL`); `saveInferenceOutput` runs unless
`FLAG_DISCARD_INFERENCE_OUTPUT` is set; then the result is pushed and the
elapsed time accumulated. -/
def runSequence (env : BenchEnv) (flags : Nat) (inputOutputSequenceIndex : Nat) :
    List InferenceInOut → Nat → LoopState → Except Fatal (Bool × LoopState)
  | [], _, st => Except.ok (true, st)
  | data :: rest, i, st =>
    let inputOk : Bool :=
      match data.input with
      | some bytes =>
        let _ignored := setInput env.inputType bytes data.input_size
        true
      | none => data.createInputOk
    if inputOk = false then Except.ok (false, st)
    else
      let success := env.runOk st.counter
      let inferenceTime := env.invTime st.counter
      if success = false then Except.ok (false, st)
      else
        let result0 : InferenceResult :=
          ⟨inferenceTime, 0, 0, [], inputOutputSequenceIndex, i⟩
        let scored : Except Fatal InferenceResult :=
          if flags &&& FLAG_IGNORE_GOLDEN_OUTPUT = 0 then
            getOutputError (env.outTensor st.counter) data.output data.output_size result0
          else Except.ok result0
        match scored with
        | Except.error e => Except.error e
        | Except.ok result1 =>
          let result2 :=
            if flags &&& FLAG_DISCARD_INFERENCE_OUTPUT = 0 then
              saveInferenceOutput (env.outTensor st.counter) result1
            else result1
          runSequence env flags inputOutputSequenceIndex rest (i + 1)
            ⟨st.counter + 1, st.results ++ [result2], st.inferenceTotal + inferenceTime⟩

/-- Outer loop of `BenchmarkModel::benchmark` (run_tflite.cpp:219-269): up to
`seqInferencesMaxCount` steps; each step ignores the `resetStates` result,
round-robins the sequence, runs it wholly, and only then compares
`inferenceTotal` against the timeout, returning success on early stop. -/
def benchLoop (env : BenchEnv) (inOutData : List (List InferenceInOut))
    (flags : Nat) (timeout : ℚ) :
    Nat → Nat → LoopState → Except Fatal (Bool × LoopState)
  | 0, _, st => Except.ok (true, st)
  | Nat.succ remaining, seqInferenceIndex, st =>
    let _ignored := env.resetOk seqInferenceIndex
    let inputOutputSequenceIndex := seqInferenceIndex % inOutData.length
    let seq := inOutData.getD inputOutputSequenceIndex []
    match runSequence env flags inputOutputSequenceIndex seq 0 st with
    | Except.error e => Except.error e
    | Except.ok (false, st') => Except.ok (false, st')
    | Except.ok (true, st') =>
      if st'.inferenceTotal > timeout then Except.ok (true, st')
      else benchLoop env inOutData flags timeout remaining (seqInferenceIndex + 1) st'

/-- `BenchmarkModel::benchmark` (run_tflite.cpp:208): `FATAL` on an empty
input/output vector, otherwise the outer loop starting from counter 0, empty
results and zero accumulated time.  The Bool is the function's return value;
the result list is the caller-owned `results` vector at return. -/
def benchmark (env : BenchEnv) (inOutData : List (List InferenceInOut))
    (seqInferencesMaxCount : Nat) (timeout : ℚ) (flags : Nat) :
    Except Fatal (Bool × List InferenceResult) :=
  if inOutData.isEmpty then Except.error Fatal.emptyInOutVector
  else
    match benchLoop env inOutData flags timeout seqInferencesMaxCount 0 ⟨0, [], 0⟩ with
    | Except.error e => Except.error e
    | Except.ok (b, st) => Except.ok (b, st.results)

/-- The result record pushed for one entry when neither the input step, the
invocation, nor `getOutputError` fails: the per-entry body of the inner loop
as a pure function of environment, flags, position and entry. -/
def mkResult (env : BenchEnv) (flags : Nat) (s c i : Nat) (data : InferenceInOut) :
    InferenceResult :=
  let result0 : InferenceResult := ⟨env.invTime c, 0, 0, [], s, i⟩
  let result1 :=
    if flags &&& FLAG_IGNORE_GOLDEN_OUTPUT = 0 then
      match getOutputError (env.outTensor c) data.output data.output_size result0 with
      | Except.ok r => r
      | Except.error _ => result0
    else result0
  if flags &&& FLAG_DISCARD_INFERENCE_OUTPUT = 0 then
    saveInferenceOutput (env.outTensor c) result1
  else result1

/-- The block of results a whole sequence contributes, entries starting at
global counter `c` and entry index `i`. -/
def seqBlock (env : BenchEnv) (flags : Nat) (s : Nat) :
    Nat → Nat → List InferenceInOut → List InferenceResult
  | _, _, [] => []
  | c, i, data :: rest =>
    mkResult env flags s c i data :: seqBlock env flags s (c + 1) (i + 1) rest

/-- Total elapsed seconds a list of entries contributes, invocations starting
at global counter `c`. -/
def blockTime (env : BenchEnv) : Nat → List InferenceInOut → ℚ
  | _, [] => 0
  | c, _ :: rest => env.invTime c + blockTime env (c + 1) rest

/-- Pointwise success conditions for a list of entries starting at global
counter `c`: the input step cannot fail, the invocation succeeds, and
`getOutputError` cannot hit `FATAL` (or is skipped by the flag). -/
def EntriesOk (env : BenchEnv) (flags : Nat) : Nat → List InferenceInOut → Prop
  | _, [] => True
  | c, data :: rest =>
    (data.input.isSome = true ∨ data.createInputOk = true) ∧
    env.runOk c = true ∧
    (flags &&& FLAG_IGNORE_GOLDEN_OUTPUT ≠ 0 ∨
      ((env.outTensor c).bytes = data.output_size ∧
        ((env.outTensor c).ttype = TfLiteType.uint8 ∨
          (env.outTensor c).ttype = TfLiteType.float32))) ∧
    EntriesOk env flags (c + 1) rest

/-- A benchmark run with no per-entry failure: every sequence passes
`EntriesOk` at every starting counter. -/
def GoodEnv (env : BenchEnv) (flags : Nat)
    (inOutData : List (List InferenceInOut)) : Prop :=
  ∀ (c : Nat) (seq : List InferenceInOut), seq ∈ inOutData → EntriesOk env flags c seq

/-- Length of the sequence the round-robin selects at outer step `j`. -/
def seqLenAt (inOutData : List (List InferenceInOut)) (j : Nat) : Nat :=
  (inOutData.getD (j % inOutData.length) []).length

/-- Global invocation counter at the start of outer step `j` (no failures). -/
def entriesBefore (inOutData : List (List InferenceInOut)) : Nat → Nat
  | 0 => 0
  | j + 1 => entriesBefore inOutData j + seqLenAt inOutData j

/-- Accumulated elapsed seconds after `j` whole outer steps (no failures). -/
def totalAfter (env : BenchEnv) (inOutData : List (List InferenceInOut)) :
    Nat → ℚ
  | 0 => 0
  | j + 1 => totalAfter env inOutData j +
      blockTime env (entriesBefore inOutData j)
        (inOutData.getD ((j % inOutData.length)) [])

/-- The result block outer step `j` contributes in a failure-free run. -/
def blockAt (env : BenchEnv) (flags : Nat)
    (inOutData : List (List InferenceInOut)) (j : Nat) : List InferenceResult :=
  seqBlock env flags (j % inOutData.length) (entriesBefore inOutData j) 0
    (inOutData.getD (j % inOutData.length) [])

/-- Concatenation of the blocks of `k` consecutive outer steps starting at
step `idx`. -/
def blocksFrom (env : BenchEnv) (flags : Nat)
    (inOutData : List (List InferenceInOut)) : Nat → Nat → List InferenceResult
  | _, 0 => []
  | idx, Nat.succ k =>
    blockAt env flags inOutData idx ++ blocksFrom env flags inOutData (idx + 1) k

/-- Number of outer steps a failure-free run actually executes with the given
fuel starting at step `idx`: each step runs wholly, and the loop stops right
after the first step whose accumulated total exceeds the timeout. -/
def execSteps (env : BenchEnv) (inOutData : List (List InferenceInOut))
    (timeout : ℚ) : Nat → Nat → Nat
  | 0, _ => 0
  | Nat.succ remaining, idx =>
    if totalAfter env inOutData (idx + 1) > timeout then 1
    else Nat.succ (execSteps env inOutData timeout remaining (idx + 1))

/-- Concrete environment for exercising the loop on closed inputs: every
invocation succeeds in one second and yields a one-byte uint8 output of
value 4. -/
def envW : BenchEnv :=
  ⟨TfLiteType.uint8, fun _ => true, fun _ => true, fun _ => 1,
    fun _ => ⟨TfLiteType.uint8, 1, [4], []⟩⟩

/-- Like `envW` but every invocation takes zero seconds (the timeout is then
never exceeded). -/
def envW0 : BenchEnv :=
  ⟨TfLiteType.uint8, fun _ => true, fun _ => true, fun _ => 0,
    fun _ => ⟨TfLiteType.uint8, 1, [4], []⟩⟩

/-- Like `envW0` but with an unsupported input tensor type, so every
`setInput` call fails. -/
def envBadInput : BenchEnv :=
  ⟨TfLiteType.other, fun _ => true, fun _ => true, fun _ => 0,
    fun _ => ⟨TfLiteType.uint8, 1, [4], []⟩⟩

/-- Like `envW` but only the first invocation succeeds. -/
def envRunFail1 : BenchEnv :=
  ⟨TfLiteType.uint8, fun _ => true, fun n => n == 0, fun _ => 1,
    fun _ => ⟨TfLiteType.uint8, 1, [4], []⟩⟩

/-- Concrete raw-input entry whose expected output matches the tensors of
`envW` / `envW0`. -/
def entryW : InferenceInOut := ⟨some [2], 1, ⟨[4], []⟩, 1, true⟩

/-- Concrete entry with no raw input whose fill callback fails. -/
def entryFail : InferenceInOut := ⟨none, 1, ⟨[4], []⟩, 1, false⟩

/-- Concrete entry whose expected length disagrees with the tensors of
`envW` (contract violation in `getOutputError`). -/
def entryWrongLen : InferenceInOut := ⟨some [2], 1, ⟨[4, 4], []⟩, 2, true⟩

/-! ### Facts about the error metric -/

lemma accumulateError_snd (pairs : List (ℚ × ℚ)) :
    ∀ (err_sum max_error : ℚ), (accumulateError err_sum max_error pairs).2 =
      pairs.foldl (fun m p => max m (p.1 - p.2)) max_error := by
  induction pairs with
  | nil => intro es me; rfl
  | cons p rest ih =>
    intro es me
    simp only [accumulateError, List.foldl_cons]
    rw [ih]
    congr 1
    rcases le_or_lt (p.1 - p.2) me with h | h
    · rw [if_neg (not_lt.mpr h), max_eq_left h]
    · rw [if_pos h, max_eq_right h.le]

lemma getOutputError_fields (t : Tensor) (e : ByteBuffer) (len : Nat)
    (r r' : InferenceResult) (h : getOutputError t e len r = Except.ok r') :
    r'.inferenceTime = r.inferenceTime ∧ r'.inferenceOutput = r.inferenceOutput ∧
    r'.inputOutputSequenceIndex = r.inputOutputSequenceIndex ∧
    r'.inputOutputIndex = r.inputOutputIndex := by
  unfold getOutputError at h
  split at h
  · exact absurd h (by simp)
  · split at h
    · simp only [Except.ok.injEq] at h
      subst h
      exact ⟨rfl, rfl, rfl, rfl⟩
    · simp only [Except.ok.injEq] at h
      subst h
      exact ⟨rfl, rfl, rfl, rfl⟩
    · exact absurd h (by simp)

lemma getOutputError_ok (t : Tensor) (e : ByteBuffer) (len : Nat)
    (r : InferenceResult) (hb : t.bytes = len)
    (ht : t.ttype = TfLiteType.uint8 ∨ t.ttype = TfLiteType.float32) :
    ∃ r', getOutputError t e len r = Except.ok r' := by
  unfold getOutputError
  rw [if_neg (by simp [hb])]
  rcases ht with ht | ht <;> rw [ht] <;> exact ⟨_, rfl⟩

/-! ### Small-step facts about the inner benchmark loop -/

lemma runSequence_cons_inputFail (env : BenchEnv) (flags s : Nat)
    (data : InferenceInOut) (rest : List InferenceInOut) (i : Nat) (st : LoopState)
    (h1 : data.input = none) (h2 : data.createInputOk = false) :
    runSequence env flags s (data :: rest) i st = Except.ok (false, st) := by
  simp [runSequence, h1, h2]

lemma runSequence_cons_runFail (env : BenchEnv) (flags s : Nat)
    (data : InferenceInOut) (rest : List InferenceInOut) (i : Nat) (st : LoopState)
    (hin : data.input.isSome = true ∨ data.createInputOk = true)
    (hrun : env.runOk st.counter = false) :
    runSequence env flags s (data :: rest) i st = Except.ok (false, st) := by
  cases hdi : data.input with
  | some bytes => simp [runSequence, hdi, hrun]
  | none =>
    rcases hin with hin | hin
    · rw [hdi] at hin; simp at hin
    · simp [runSequence, hdi, hin, hrun]

lemma runSequence_cons_fatal (env : BenchEnv) (flags s : Nat)
    (data : InferenceInOut) (rest : List InferenceInOut) (i : Nat) (st : LoopState)
    (e : Fatal)
    (hin : data.input.isSome = true ∨ data.createInputOk = true)
    (hrun : env.runOk st.counter = true)
    (hflag : flags &&& FLAG_IGNORE_GOLDEN_OUTPUT = 0)
    (herr : getOutputError (env.outTensor st.counter) data.output data.output_size
        ⟨env.invTime st.counter, 0, 0, [], s, i⟩ = Except.error e) :
    runSequence env flags s (data :: rest) i st = Except.error e := by
  cases hdi : data.input with
  | some bytes => simp [runSequence, hdi, hrun, hflag, herr]
  | none =>
    rcases hin with hin | hin
    · rw [hdi] at hin; simp at hin
    · simp [runSequence, hdi, hin, hrun, hflag, herr]

lemma runSequence_cons_step (env : BenchEnv) (flags s : Nat)
    (data : InferenceInOut) (rest : List InferenceInOut) (i : Nat) (st : LoopState)
    (hin : data.input.isSome = true ∨ data.createInputOk = true)
    (hrun : env.runOk st.counter = true)
    (hscore : flags &&& FLAG_IGNORE_GOLDEN_OUTPUT ≠ 0 ∨
      ∃ r', getOutputError (env.outTensor st.counter) data.output data.output_size
        ⟨env.invTime st.counter, 0, 0, [], s, i⟩ = Except.ok r') :
    runSequence env flags s (data :: rest) i st =
      runSequence env flags s rest (i + 1)
        ⟨st.counter + 1, st.results ++ [mkResult env flags s st.counter i data],
         st.inferenceTotal + env.invTime st.counter⟩ := by
  by_cases hflag : flags &&& FLAG_IGNORE_GOLDEN_OUTPUT = 0
  · have hok : ∃ r', getOutputError (env.outTensor st.counter) data.output
        data.output_size ⟨env.invTime st.counter, 0, 0, [], s, i⟩ = Except.ok r' := by
      rcases hscore with hflag2 | hok
      · exact absurd hflag hflag2
      · exact hok
    obtain ⟨r', hr'⟩ := hok
    cases hdi : data.input with
    | some bytes => simp [runSequence, hdi, hrun, hflag, hr', mkResult]
    | none =>
      rcases hin with hin | hin
      · rw [hdi] at hin; simp at hin
      · simp [runSequence, hdi, hin, hrun, hflag, hr', mkResult]
  · cases hdi : data.input with
    | some bytes => simp [runSequence, hdi, hrun, hflag, mkResult]
    | none =>
      rcases hin with hin | hin
      · rw [hdi] at hin; simp at hin
      · simp [runSequence, hdi, hin, hrun, hflag, mkResult]

lemma EntriesOk_head (env : BenchEnv) (flags c : Nat) (data : InferenceInOut)
    (rest : List InferenceInOut) (h : EntriesOk env flags c (data :: rest)) :
    (data.input.isSome = true ∨ data.createInputOk = true) ∧
    env.runOk c = true ∧
    (flags &&& FLAG_IGNORE_GOLDEN_OUTPUT ≠ 0 ∨
      ((env.outTensor c).bytes = data.output_size ∧
        ((env.outTensor c).ttype = TfLiteType.uint8 ∨
          (env.outTensor c).ttype = TfLiteType.float32))) ∧
    EntriesOk env flags (c + 1) rest := h

lemma runSequence_append (env : BenchEnv) (flags s : Nat) :
    ∀ (good tail : List InferenceInOut) (i : Nat) (st : LoopState),
      EntriesOk env flags st.counter good →
      runSequence env flags s (good ++ tail) i st =
        runSequence env flags s tail (i + good.length)
          ⟨st.counter + good.length,
           st.results ++ seqBlock env flags s st.counter i good,
           st.inferenceTotal + blockTime env st.counter good⟩ := by
  intro good
  induction good with
  | nil =>
    intro tail i st _
    simp [seqBlock, blockTime]
  | cons data rest ih =>
    intro tail i st hok
    obtain ⟨hin, hrun, hscore, hrest⟩ := EntriesOk_head env flags st.counter data rest hok
    have hscore' : flags &&& FLAG_IGNORE_GOLDEN_OUTPUT ≠ 0 ∨
        ∃ r', getOutputError (env.outTensor st.counter) data.output data.output_size
          ⟨env.invTime st.counter, 0, 0, [], s, i⟩ = Except.ok r' := by
      rcases hscore with h | ⟨hb, ht⟩
      · exact Or.inl h
      · exact Or.inr (getOutputError_ok _ _ _ _ hb ht)
    rw [List.cons_append,
      runSequence_cons_step env flags s data (rest ++ tail) i st hin hrun hscore',
      ih tail (i + 1)
        ⟨st.counter + 1, st.results ++ [mkResult env flags s st.counter i data],
         st.inferenceTotal + env.invTime st.counter⟩ hrest]
    simp only [seqBlock, blockTime, List.length_cons]
    have h1 : i + 1 + rest.length = i + (rest.length + 1) := by omega
    have h2 : st.counter + 1 + rest.length = st.counter + (rest.length + 1) := by omega
    have h3 : (st.results ++ [mkResult env flags s st.counter i data]) ++
        seqBlock env flags s (st.counter + 1) (i + 1) rest =
        st.results ++ (mkResult env flags s st.counter i data ::
          seqBlock env flags s (st.counter + 1) (i + 1) rest) := by simp
    have h4 : st.inferenceTotal + env.invTime st.counter +
        blockTime env (st.counter + 1) rest =
        st.inferenceTotal + (env.invTime st.counter +
          blockTime env (st.counter + 1) rest) := by ring
    rw [h1, h2, h3, h4]

/-! ### Characterisation of failure-free outer loops -/

lemma getD_mod_mem (inOutData : List (List InferenceInOut)) (j : Nat)
    (hne : inOutData ≠ []) :
    inOutData.getD (j % inOutData.length) [] ∈ inOutData := by
  have hlen : 0 < inOutData.length := List.length_pos.mpr hne
  have hlt : j % inOutData.length < inOutData.length := Nat.mod_lt _ hlen
  rw [List.getD_eq_getElem _ _ hlt]
  exact List.getElem_mem hlt

lemma runSequence_whole (env : BenchEnv) (flags : Nat)
    (inOutData : List (List InferenceInOut)) (idx : Nat)
    (results : List InferenceResult)
    (hEk : EntriesOk env flags (entriesBefore inOutData idx)
      (inOutData.getD (idx % inOutData.length) [])) :
    runSequence env flags (idx % inOutData.length)
      (inOutData.getD (idx % inOutData.length) []) 0
      ⟨entriesBefore inOutData idx, results, totalAfter env inOutData idx⟩ =
    Except.ok (true,
      ⟨entriesBefore inOutData (idx + 1),
       results ++ blockAt env flags inOutData idx,
       totalAfter env inOutData (idx + 1)⟩) := by
  have h := runSequence_append env flags (idx % inOutData.length)
    (inOutData.getD (idx % inOutData.length) []) [] 0
    ⟨entriesBefore inOutData idx, results, totalAfter env inOutData idx⟩ hEk
  rw [List.append_nil] at h
  rw [h]
  simp only [runSequence]
  rfl

lemma benchLoop_good (env : BenchEnv) (flags : Nat)
    (inOutData : List (List InferenceInOut)) (timeout : ℚ)
    (hne : inOutData ≠ []) (hgood : GoodEnv env flags inOutData) :
    ∀ (fuel idx : Nat) (results : List InferenceResult),
      benchLoop env inOutData flags timeout fuel idx
        ⟨entriesBefore inOutData idx, results, totalAfter env inOutData idx⟩ =
      Except.ok (true,
        ⟨entriesBefore inOutData (idx + execSteps env inOutData timeout fuel idx),
         results ++ blocksFrom env flags inOutData idx
           (execSteps env inOutData timeout fuel idx),
         totalAfter env inOutData (idx + execSteps env inOutData timeout fuel idx)⟩) := by
  intro fuel
  induction fuel with
  | zero =>
    intro idx results
    simp [benchLoop, execSteps, blocksFrom]
  | succ remaining ih =>
    intro idx results
    have hEk : EntriesOk env flags (entriesBefore inOutData idx)
        (inOutData.getD (idx % inOutData.length) []) :=
      hgood _ _ (getD_mod_mem inOutData idx hne)
    have hrs := runSequence_whole env flags inOutData idx results hEk
    by_cases htime : totalAfter env inOutData (idx + 1) > timeout
    · have hK : execSteps env inOutData timeout (Nat.succ remaining) idx = 1 := by
        simp [execSteps, htime]
      rw [hK]
      simp only [benchLoop, hrs, if_pos htime]
      simp [blocksFrom]
    · have hK : execSteps env inOutData timeout (Nat.succ remaining) idx =
          Nat.succ (execSteps env inOutData timeout remaining (idx + 1)) := by
        simp [execSteps, htime]
      rw [hK]
      simp only [benchLoop, hrs, if_neg htime]
      rw [ih (idx + 1) (results ++ blockAt env flags inOutData idx)]
      simp only [blocksFrom, List.append_assoc]
      have harith : idx + Nat.succ (execSteps env inOutData timeout remaining (idx + 1)) =
          idx + 1 + execSteps env inOutData timeout remaining (idx + 1) := by omega
      rw [harith]

lemma benchmark_good (env : BenchEnv) (flags : Nat)
    (inOutData : List (List InferenceInOut)) (maxCount : Nat) (timeout : ℚ)
    (hne : inOutData ≠ []) (hgood : GoodEnv env flags inOutData) :
    benchmark env inOutData maxCount timeout flags =
      Except.ok (true, blocksFrom env flags inOutData 0
        (execSteps env inOutData timeout maxCount 0)) := by
  have h0 := benchLoop_good env flags inOutData timeout hne hgood maxCount 0 []
  unfold benchmark
  rw [if_neg (by simp [hne])]
  have hinit : (⟨0, [], 0⟩ : LoopState) =
      ⟨entriesBefore inOutData 0, [], totalAfter env inOutData 0⟩ := rfl
  rw [hinit, h0]
  simp

lemma execSteps_le (env : BenchEnv) (inOutData : List (List InferenceInOut))
    (timeout : ℚ) :
    ∀ (fuel idx : Nat), execSteps env inOutData timeout fuel idx ≤ fuel := by
  intro fuel
  induction fuel with
  | zero => intro idx; simp [execSteps]
  | succ r ih =>
    intro idx
    by_cases h : totalAfter env inOutData (idx + 1) > timeout
    · simp [execSteps, h]
    · simp only [execSteps, if_neg h]
      have := ih (idx + 1)
      omega

lemma execSteps_stop (env : BenchEnv) (inOutData : List (List InferenceInOut))
    (timeout : ℚ) :
    ∀ (fuel idx : Nat), execSteps env inOutData timeout fuel idx < fuel →
      totalAfter env inOutData (idx + execSteps env inOutData timeout fuel idx) >
        timeout := by
  intro fuel
  induction fuel with
  | zero => intro idx h; exact absurd h (by simp [execSteps])
  | succ r ih =>
    intro idx hlt
    by_cases h : totalAfter env inOutData (idx + 1) > timeout
    · simp [execSteps, h]
    · simp only [execSteps, if_neg h] at hlt ⊢
      have hlt' : execSteps env inOutData timeout r (idx + 1) < r := by omega
      have := ih (idx + 1) hlt'
      have harith : idx + Nat.succ (execSteps env inOutData timeout r (idx + 1)) =
          idx + 1 + execSteps env inOutData timeout r (idx + 1) := by omega
      rw [harith]
      exact this

lemma execSteps_min (env : BenchEnv) (inOutData : List (List InferenceInOut))
    (timeout : ℚ) :
    ∀ (fuel idx t : Nat), t + 1 < execSteps env inOutData timeout fuel idx →
      totalAfter env inOutData (idx + t + 1) ≤ timeout := by
  intro fuel
  induction fuel with
  | zero => intro idx t h; exact absurd h (by simp [execSteps])
  | succ r ih =>
    intro idx t ht
    by_cases h : totalAfter env inOutData (idx + 1) > timeout
    · rw [execSteps, if_pos h] at ht; omega
    · rw [execSteps, if_neg h] at ht
      cases t with
      | zero => simpa using not_lt.mp h
      | succ u =>
        have hu : u + 1 < execSteps env inOutData timeout r (idx + 1) := by omega
        have := ih (idx + 1) u hu
        have harith : idx + (u + 1) + 1 = idx + 1 + u + 1 := by omega
        rw [harith]
        exact this

lemma execSteps_eq_fuel (env : BenchEnv) (inOutData : List (List InferenceInOut))
    (timeout : ℚ) (hT : ∀ j, totalAfter env inOutData j ≤ timeout) :
    ∀ (fuel idx : Nat), execSteps env inOutData timeout fuel idx = fuel := by
  intro fuel
  induction fuel with
  | zero => intro idx; rfl
  | succ r ih =>
    intro idx
    rw [execSteps, if_neg (not_lt.mpr (hT (idx + 1)))]
    rw [ih (idx + 1)]

/-! ### Field lemmas for the per-entry result -/

lemma mkResult_indices (env : BenchEnv) (flags s c i : Nat) (data : InferenceInOut) :
    (mkResult env flags s c i data).inputOutputSequenceIndex = s ∧
    (mkResult env flags s c i data).inputOutputIndex = i ∧
    (mkResult env flags s c i data).inferenceTime = env.invTime c := by
  simp only [mkResult]
  by_cases h1 : flags &&& FLAG_IGNORE_GOLDEN_OUTPUT = 0
  · rw [if_pos h1]
    cases hg : getOutputError (env.outTensor c) data.output data.output_size
        ⟨env.invTime c, 0, 0, [], s, i⟩ with
    | error e =>
      by_cases h2 : flags &&& FLAG_DISCARD_INFERENCE_OUTPUT = 0
      · rw [if_pos h2]; exact ⟨rfl, rfl, rfl⟩
      · rw [if_neg h2]; exact ⟨rfl, rfl, rfl⟩
    | ok r' =>
      obtain ⟨ht, _, hs, hi⟩ := getOutputError_fields _ _ _ _ _ hg
      by_cases h2 : flags &&& FLAG_DISCARD_INFERENCE_OUTPUT = 0
      · rw [if_pos h2]; exact ⟨hs, hi, ht⟩
      · rw [if_neg h2]; exact ⟨hs, hi, ht⟩
  · rw [if_neg h1]
    by_cases h2 : flags &&& FLAG_DISCARD_INFERENCE_OUTPUT = 0
    · rw [if_pos h2]; exact ⟨rfl, rfl, rfl⟩
    · rw [if_neg h2]; exact ⟨rfl, rfl, rfl⟩

lemma mkResult_ignore (env : BenchEnv) (flags s c i : Nat) (data : InferenceInOut)
    (h1 : flags &&& FLAG_IGNORE_GOLDEN_OUTPUT ≠ 0) :
    (mkResult env flags s c i data).meanSquareError = 0 ∧
    (mkResult env flags s c i data).maxSingleError = 0 := by
  simp only [mkResult, if_neg h1]
  by_cases h2 : flags &&& FLAG_DISCARD_INFERENCE_OUTPUT = 0
  · rw [if_pos h2]; exact ⟨rfl, rfl⟩
  · rw [if_neg h2]; exact ⟨rfl, rfl⟩

lemma mkResult_discard (env : BenchEnv) (flags s c i : Nat) (data : InferenceInOut)
    (h2 : flags &&& FLAG_DISCARD_INFERENCE_OUTPUT ≠ 0) :
    (mkResult env flags s c i data).inferenceOutput = [] := by
  simp only [mkResult, if_neg h2]
  by_cases h1 : flags &&& FLAG_IGNORE_GOLDEN_OUTPUT = 0
  · rw [if_pos h1]
    cases hg : getOutputError (env.outTensor c) data.output data.output_size
        ⟨env.invTime c, 0, 0, [], s, i⟩ with
    | error e => rfl
    | ok r' => exact (getOutputError_fields _ _ _ _ _ hg).2.1
  · rw [if_neg h1]

/-! ### Result invariants propagated through the loops -/

lemma runSequence_ok_inv (P : InferenceResult → Prop) (env : BenchEnv)
    (flags s : Nat)
    (hP : ∀ (c i : Nat) (data : InferenceInOut), P (mkResult env flags s c i data)) :
    ∀ (entries : List InferenceInOut) (i : Nat) (st : LoopState) (b : Bool)
      (st' : LoopState),
      runSequence env flags s entries i st = Except.ok (b, st') →
      (∀ r ∈ st.results, P r) → ∀ r ∈ st'.results, P r := by
  intro entries
  induction entries with
  | nil =>
    intro i st b st' h hinv
    simp only [runSequence, Except.ok.injEq, Prod.mk.injEq] at h
    rw [← h.2]
    exact hinv
  | cons data rest ih =>
    intro i st b st' h hinv
    by_cases hin : data.input.isSome = true ∨ data.createInputOk = true
    · by_cases hrun : env.runOk st.counter = true
      · by_cases hflag : flags &&& FLAG_IGNORE_GOLDEN_OUTPUT = 0
        · cases hg : getOutputError (env.outTensor st.counter) data.output
              data.output_size ⟨env.invTime st.counter, 0, 0, [], s, i⟩ with
          | error e =>
            rw [runSequence_cons_fatal env flags s data rest i st e hin hrun hflag hg]
              at h
            exact absurd h (by simp)
          | ok r' =>
            rw [runSequence_cons_step env flags s data rest i st hin hrun
              (Or.inr ⟨r', hg⟩)] at h
            refine ih (i + 1) _ b st' h ?_
            intro r hr
            rcases List.mem_append.mp hr with hr | hr
            · exact hinv r hr
            · rw [List.mem_singleton.mp hr]; exact hP st.counter i data
        · rw [runSequence_cons_step env flags s data rest i st hin hrun
            (Or.inl hflag)] at h
          refine ih (i + 1) _ b st' h ?_
          intro r hr
          rcases List.mem_append.mp hr with hr | hr
          · exact hinv r hr
          · rw [List.mem_singleton.mp hr]; exact hP st.counter i data
      · rw [runSequence_cons_runFail env flags s data rest i st hin
          (by simpa using hrun)] at h
        simp only [Except.ok.injEq, Prod.mk.injEq] at h
        rw [← h.2]
        exact hinv
    · push_neg at hin
      have h1 : data.input = none := by
        cases hdi : data.input with
        | none => rfl
        | some bytes => rw [hdi] at hin; simp at hin
      have h2 : data.createInputOk = false := by simpa using hin.2
      rw [runSequence_cons_inputFail env flags s data rest i st h1 h2] at h
      simp only [Except.ok.injEq, Prod.mk.injEq] at h
      rw [← h.2]
      exact hinv

lemma benchLoop_ok_inv (P : InferenceResult → Prop) (env : BenchEnv)
    (flags : Nat) (inOutData : List (List InferenceInOut)) (timeout : ℚ)
    (hP : ∀ (s c i : Nat) (data : InferenceInOut), P (mkResult env flags s c i data)) :
    ∀ (fuel idx : Nat) (st : LoopState) (b : Bool) (st' : LoopState),
      benchLoop env inOutData flags timeout fuel idx st = Except.ok (b, st') →
      (∀ r ∈ st.results, P r) → ∀ r ∈ st'.results, P r := by
  intro fuel
  induction fuel with
  | zero =>
    intro idx st b st' h hinv
    simp only [benchLoop, Except.ok.injEq, Prod.mk.injEq] at h
    rw [← h.2]
    exact hinv
  | succ rem ih =>
    intro idx st b st' h hinv
    simp only [benchLoop] at h
    cases hrs : runSequence env flags (idx % inOutData.length)
        (inOutData.getD (idx % inOutData.length) []) 0 st with
    | error e => rw [hrs] at h; exact absurd h (by simp)
    | ok p =>
      obtain ⟨bb, st1⟩ := p
      rw [hrs] at h
      have hinv1 : ∀ r ∈ st1.results, P r :=
        runSequence_ok_inv P env flags _ (hP _) _ 0 st bb st1 hrs hinv
      cases bb with
      | false =>
        simp only [Except.ok.injEq, Prod.mk.injEq] at h
        rw [← h.2]
        exact hinv1
      | true =>
        have h' : (if st1.inferenceTotal > timeout then
              (Except.ok (true, st1) : Except Fatal (Bool × LoopState))
            else benchLoop env inOutData flags timeout rem (idx + 1) st1) =
            Except.ok (b, st') := h
        by_cases htime : st1.inferenceTotal > timeout
        · rw [if_pos htime] at h'
          simp only [Except.ok.injEq, Prod.mk.injEq] at h'
          rw [← h'.2]
          exact hinv1
        · rw [if_neg htime] at h'
          exact ih (idx + 1) st1 b st' h' hinv1

lemma benchmark_ok_inv (P : InferenceResult → Prop) (env : BenchEnv)
    (inOutData : List (List InferenceInOut)) (maxCount : Nat) (timeout : ℚ)
    (flags : Nat) (b : Bool) (res : List InferenceResult)
    (hP : ∀ (s c i : Nat) (data : InferenceInOut), P (mkResult env flags s c i data))
    (h : benchmark env inOutData maxCount timeout flags = Except.ok (b, res)) :
    ∀ r ∈ res, P r := by
  unfold benchmark at h
  by_cases hne : inOutData.isEmpty
  · rw [if_pos hne] at h; exact absurd h (by simp)
  · rw [if_neg hne] at h
    cases hbl : benchLoop env inOutData flags timeout maxCount 0 ⟨0, [], 0⟩ with
    | error e => rw [hbl] at h; exact absurd h (by simp)
    | ok p =>
      obtain ⟨b', st⟩ := p
      rw [hbl] at h
      simp only [Except.ok.injEq, Prod.mk.injEq] at h
      rw [← h.2]
      exact benchLoop_ok_inv P env flags inOutData timeout hP maxCount 0 _ _ _ hbl
        (by simp)

/-! ### Shape of the result blocks -/

lemma seqBlock_length (env : BenchEnv) (flags s : Nat) :
    ∀ (entries : List InferenceInOut) (c i : Nat),
      (seqBlock env flags s c i entries).length = entries.length := by
  intro entries
  induction entries with
  | nil => intro c i; rfl
  | cons d rest ih => intro c i; simp [seqBlock, ih]

lemma seqBlock_mem_seqIdx (env : BenchEnv) (flags s : Nat) :
    ∀ (entries : List InferenceInOut) (c i : Nat) (r : InferenceResult),
      r ∈ seqBlock env flags s c i entries → r.inputOutputSequenceIndex = s := by
  intro entries
  induction entries with
  | nil => intro c i r hr; simp [seqBlock] at hr
  | cons d rest ih =>
    intro c i r hr
    simp only [seqBlock, List.mem_cons] at hr
    rcases hr with hr | hr
    · rw [hr]; exact (mkResult_indices env flags s c i d).1
    · exact ih (c + 1) (i + 1) r hr

lemma seqBlock_getD (env : BenchEnv) (flags s : Nat) :
    ∀ (entries : List InferenceInOut) (c i k : Nat), k < entries.length →
      ((seqBlock env flags s c i entries).getD k default).inputOutputSequenceIndex = s ∧
      ((seqBlock env flags s c i entries).getD k default).inputOutputIndex = i + k := by
  intro entries
  induction entries with
  | nil => intro c i k hk; simp at hk
  | cons d rest ih =>
    intro c i k hk
    cases k with
    | zero =>
      simp only [seqBlock, List.getD_cons_zero, Nat.add_zero]
      exact ⟨(mkResult_indices env flags s c i d).1, (mkResult_indices env flags s c i d).2.1⟩
    | succ k' =>
      simp only [seqBlock, List.getD_cons_succ]
      have h := ih (c + 1) (i + 1) k' (by simpa using Nat.lt_of_succ_lt_succ hk)
      refine ⟨h.1, ?_⟩
      rw [h.2]
      omega

lemma blockAt_single (env : BenchEnv) (flags : Nat) (s : List InferenceInOut)
    (t : Nat) :
    blockAt env flags [s] t =
      seqBlock env flags 0 (entriesBefore [s] t) 0 s := by
  simp [blockAt, Nat.mod_one]

lemma blocksFrom_single_length (env : BenchEnv) (flags : Nat)
    (s : List InferenceInOut) :
    ∀ (k idx : Nat), (blocksFrom env flags [s] idx k).length = k * s.length := by
  intro k
  induction k with
  | zero => intro idx; simp [blocksFrom]
  | succ k' ih =>
    intro idx
    simp only [blocksFrom, List.length_append, blockAt_single,
      seqBlock_length, ih]
    ring

lemma blocksFrom_single_getD (env : BenchEnv) (flags : Nat)
    (s : List InferenceInOut) :
    ∀ (k idx j p : Nat), j < k → p < s.length →
      (blocksFrom env flags [s] idx k).getD (j * s.length + p) default =
      (blockAt env flags [s] (idx + j)).getD p default := by
  intro k
  induction k with
  | zero => intro idx j p hj hp; omega
  | succ k' ih =>
    intro idx j p hj hp
    cases j with
    | zero =>
      simp only [blocksFrom, Nat.zero_mul, Nat.zero_add, Nat.add_zero]
      rw [List.getD_append]
      rw [blockAt_single, seqBlock_length]
      exact hp
    | succ j' =>
      simp only [blocksFrom]
      have hlen : (blockAt env flags [s] idx).length = s.length := by
        rw [blockAt_single, seqBlock_length]
      have hbig : (blockAt env flags [s] idx).length ≤ (j' + 1) * s.length + p := by
        rw [hlen]
        have : s.length ≤ (j' + 1) * s.length := Nat.le_mul_of_pos_left _ (by omega)
        omega
      rw [List.getD_append_right _ _ _ _ hbig]
      have hidx : (j' + 1) * s.length + p - (blockAt env flags [s] idx).length =
          j' * s.length + p := by
        rw [hlen]
        have h1 : (j' + 1) * s.length = j' * s.length + s.length := by ring
        omega
      rw [hidx, ih (idx + 1) j' p (by omega) hp]
      have : idx + (j' + 1) = idx + 1 + j' := by omega
      rw [this]

/-! ### The claims -/

/-- C1: `getOutputError` tracks `maxSingleError` as a signed maximum over
both supported element types: starting from 0, an element's error
`produced − expected` replaces the maximum only when strictly larger, so the
accumulated value is the fold of `max` over the signed errors and a negative
error never updates it; for a single uint8 or float32 element with
produced > expected the field equals exactly produced − expected, and with
produced < expected it stays 0. -/
theorem errorMetric_signed_max :
    (∀ (err_sum max_error : ℚ) (pairs : List (ℚ × ℚ)),
      (accumulateError err_sum max_error pairs).2 =
        pairs.foldl (fun m p => max m (p.1 - p.2)) max_error) ∧
    (∀ (p e : Nat) (r : InferenceResult), (e : ℚ) < (p : ℚ) →
      (getOutputError ⟨TfLiteType.uint8, 1, [p], []⟩ ⟨[e], []⟩ 1 r).map
          (fun x => x.maxSingleError) = Except.ok ((p : ℚ) - (e : ℚ))) ∧
    (∀ (p e : Nat) (r : InferenceResult), (p : ℚ) < (e : ℚ) →
      (getOutputError ⟨TfLiteType.uint8, 1, [p], []⟩ ⟨[e], []⟩ 1 r).map
          (fun x => x.maxSingleError) = Except.ok 0) ∧
    (∀ (p e : ℚ) (r : InferenceResult), e < p →
      (getOutputError ⟨TfLiteType.float32, 4, [], [p]⟩ ⟨[], [e]⟩ 4 r).map
          (fun x => x.maxSingleError) = Except.ok (p - e)) ∧
    (∀ (p e : ℚ) (r : InferenceResult), p < e →
      (getOutputError ⟨TfLiteType.float32, 4, [], [p]⟩ ⟨[], [e]⟩ 4 r).map
          (fun x => x.maxSingleError) = Except.ok 0) := by
  refine ⟨fun es me pairs => accumulateError_snd pairs es me, ?_, ?_, ?_, ?_⟩
  · intro p e r h
    have h' : (0 : ℚ) < (p : ℚ) - (e : ℚ) := sub_pos.mpr h
    simp [getOutputError, accumulateError, Except.map, h']
  · intro p e r h
    have h' : ¬((0 : ℚ) < (p : ℚ) - (e : ℚ)) := by
      rw [not_lt]
      exact sub_nonpos.mpr h.le
    simp [getOutputError, accumulateError, Except.map, h']
  · intro p e r h
    have h' : (0 : ℚ) < p - e := sub_pos.mpr h
    simp [getOutputError, accumulateError, Except.map, h']
  · intro p e r h
    have h' : ¬((0 : ℚ) < p - e) := by
      rw [not_lt]
      exact sub_nonpos.mpr h.le
    simp [getOutputError, accumulateError, Except.map, h']

/-- Witness for C1 at concrete inputs: a negative error list folds to 0; for
bytes 7 vs 3 the max is exactly 4; for 3 vs 7 it is 0; likewise for the float
path with 7/2 vs 1/2. -/
theorem errorMetric_signed_max_witness :
    (accumulateError 0 0 [((5 : ℚ), (9 : ℚ))]).2 =
      [((5 : ℚ), (9 : ℚ))].foldl (fun m p => max m (p.1 - p.2)) 0 ∧
    (getOutputError ⟨TfLiteType.uint8, 1, [7], []⟩ ⟨[3], []⟩ 1 default).map
        (fun x => x.maxSingleError) = Except.ok (((7 : Nat) : ℚ) - ((3 : Nat) : ℚ)) ∧
    (getOutputError ⟨TfLiteType.uint8, 1, [3], []⟩ ⟨[7], []⟩ 1 default).map
        (fun x => x.maxSingleError) = Except.ok 0 ∧
    (getOutputError ⟨TfLiteType.float32, 4, [], [(7 : ℚ) / 2]⟩ ⟨[], [(1 : ℚ) / 2]⟩ 4
        default).map (fun x => x.maxSingleError) =
      Except.ok ((7 : ℚ) / 2 - (1 : ℚ) / 2) ∧
    (getOutputError ⟨TfLiteType.float32, 4, [], [(1 : ℚ) / 2]⟩ ⟨[], [(7 : ℚ) / 2]⟩ 4
        default).map (fun x => x.maxSingleError) = Except.ok 0 :=
  ⟨errorMetric_signed_max.1 0 0 _,
    errorMetric_signed_max.2.1 7 3 default (by norm_num),
    errorMetric_signed_max.2.2.1 3 7 default (by norm_num),
    errorMetric_signed_max.2.2.2.1 ((7 : ℚ) / 2) ((1 : ℚ) / 2) default (by norm_num),
    errorMetric_signed_max.2.2.2.2 ((1 : ℚ) / 2) ((7 : ℚ) / 2) default (by norm_num)⟩

/-- C2 counterexample: the claim says a failed resolution of the tracing
capability must not crash or assert, but `setupTraceFunc` hits `FATAL`
(fatal log + `assert(false)`) exactly when libandroid.so cannot be opened:
at the concrete environment where `dlopen` fails, the function terminates
the process instead of degrading to no-ops. -/
theorem setupTraceFunc_crashes_on_resolution_failure :
    setupTraceFunc ⟨false, none, none⟩ =
      Except.error Fatal.unableToOpenLibandroid := rfl

/-- C2 (amended): if the dynamic tracing library cannot be opened,
`setupTraceFunc` fails fatally (FATAL log + assert) instead of degrading to
no-ops; if the library opens, the two `dlsym` results are stored with no
null check (no no-op fallback is substituted for missing symbols). -/
theorem setupTraceFunc_missing_lib_is_fatal (env : DlEnv) :
    (env.libandroidHandle = false →
      setupTraceFunc env = Except.error Fatal.unableToOpenLibandroid) ∧
    (env.libandroidHandle = true →
      setupTraceFunc env = Except.ok ⟨env.beginSectionSym, env.endSectionSym⟩) := by
  constructor
  · intro h; simp [setupTraceFunc, h]
  · intro h; simp [setupTraceFunc, h]

/-- Witness for the amended C2 at concrete environments: a missing library is
fatal; an open library with both symbols unresolved stores the two null
results unchecked. -/
theorem setupTraceFunc_missing_lib_is_fatal_witness :
    setupTraceFunc ⟨false, some 3, some 4⟩ =
      Except.error Fatal.unableToOpenLibandroid ∧
    setupTraceFunc ⟨true, none, none⟩ = Except.ok ⟨none, none⟩ :=
  ⟨(setupTraceFunc_missing_lib_is_fatal ⟨false, some 3, some 4⟩).1 rfl,
    (setupTraceFunc_missing_lib_is_fatal ⟨true, none, none⟩).2 rfl⟩

/-- C3: in a failure-free run, `benchmark` returns success with the results
being a concatenation of whole per-sequence blocks (`blocksFrom`), so it
never stops mid-sequence; the number of executed outer steps is at most
`maxCount`; when the run stops before `maxCount` steps, the accumulated
elapsed time after the last executed step exceeds the timeout (it stops
immediately, returning success); and after every earlier step the
accumulated time was still within the timeout. -/
theorem benchmark_timeout_sequence_boundary (env : BenchEnv) (flags : Nat)
    (inOutData : List (List InferenceInOut)) (maxCount : Nat) (timeout : ℚ)
    (hne : inOutData ≠ []) (hgood : GoodEnv env flags inOutData) :
    benchmark env inOutData maxCount timeout flags =
      Except.ok (true, blocksFrom env flags inOutData 0
        (execSteps env inOutData timeout maxCount 0)) ∧
    execSteps env inOutData timeout maxCount 0 ≤ maxCount ∧
    (execSteps env inOutData timeout maxCount 0 < maxCount →
      totalAfter env inOutData (execSteps env inOutData timeout maxCount 0) >
        timeout) ∧
    (∀ t : Nat, t + 1 < execSteps env inOutData timeout maxCount 0 →
      totalAfter env inOutData (t + 1) ≤ timeout) := by
  refine ⟨benchmark_good env flags inOutData maxCount timeout hne hgood,
    execSteps_le env inOutData timeout maxCount 0, ?_, ?_⟩
  · intro hlt
    have h := execSteps_stop env inOutData timeout maxCount 0 hlt
    rwa [Nat.zero_add] at h
  · intro t ht
    have h := execSteps_min env inOutData timeout maxCount 0 t ht
    rwa [Nat.zero_add] at h

/-- Witness for C3: concrete one-second-per-inference environment, a single
one-entry sequence, five steps allowed, timeout 3/2 — the run returns success
with whole-sequence blocks. -/
theorem benchmark_timeout_sequence_boundary_witness :
    benchmark envW [[entryW]] 5 (3 / 2) 0 =
      Except.ok (true, blocksFrom envW 0 [[entryW]] 0
        (execSteps envW [[entryW]] (3 / 2) 5 0)) ∧
    execSteps envW [[entryW]] (3 / 2) 5 0 ≤ 5 :=
  have h := benchmark_timeout_sequence_boundary envW 0 [[entryW]] 5 (3 / 2)
    (by simp)
    (by
      intro c seq hseq
      simp only [List.mem_singleton] at hseq
      subst hseq
      exact ⟨Or.inl rfl, rfl, Or.inr ⟨rfl, Or.inl rfl⟩, trivial⟩)
  ⟨h.1, h.2.1⟩

lemma EntriesOk_of_forall (env : BenchEnv) (flags : Nat) :
    ∀ (entries : List InferenceInOut) (c : Nat),
      (∀ d ∈ entries, d.input.isSome = true ∨ d.createInputOk = true) →
      (∀ (n : Nat) (d : InferenceInOut), d ∈ entries →
        flags &&& FLAG_IGNORE_GOLDEN_OUTPUT ≠ 0 ∨
        ((env.outTensor n).bytes = d.output_size ∧
          ((env.outTensor n).ttype = TfLiteType.uint8 ∨
            (env.outTensor n).ttype = TfLiteType.float32))) →
      (∀ n, env.runOk n = true) →
      EntriesOk env flags c entries := by
  intro entries
  induction entries with
  | nil => intro c _ _ _; simp [EntriesOk]
  | cons d rest ih =>
    intro c hin hout hrun
    exact ⟨hin d (List.mem_cons_self _ _), hrun c, hout c d (List.mem_cons_self _ _),
      ih (c + 1) (fun x hx => hin x (List.mem_cons_of_mem _ hx))
        (fun n x hx => hout n x (List.mem_cons_of_mem _ hx)) hrun⟩

lemma EntriesOk_entryW (env : BenchEnv) (flags : Nat)
    (hrun : ∀ n, env.runOk n = true)
    (hout : ∀ n, env.outTensor n = ⟨TfLiteType.uint8, 1, [4], []⟩) :
    ∀ (entries : List InferenceInOut) (c : Nat),
      (∀ d ∈ entries, d = entryW) → EntriesOk env flags c entries := by
  intro entries c hW
  refine EntriesOk_of_forall env flags entries c ?_ ?_ hrun
  · intro d hd
    rw [hW d hd]
    exact Or.inl rfl
  · intro n d hd
    rw [hW d hd, hout n]
    exact Or.inr ⟨rfl, Or.inl rfl⟩

lemma blockTime_zero_of (env : BenchEnv) (h : ∀ n, env.invTime n = 0) :
    ∀ (c : Nat) (l : List InferenceInOut), blockTime env c l = 0 := by
  intro c l
  induction l generalizing c with
  | nil => rfl
  | cons d rest ih => simp [blockTime, h, ih]

lemma totalAfter_zero_of (env : BenchEnv) (inOutData : List (List InferenceInOut))
    (h : ∀ n, env.invTime n = 0) :
    ∀ j, totalAfter env inOutData j = 0 := by
  intro j
  induction j with
  | zero => rfl
  | succ j' ih => simp [totalAfter, ih, blockTime_zero_of env h]

/-- C4: in a failure-free run, `benchmark` produces exactly the blocks of the
round-robin selection: step `j` uses the sequence at position
`j mod inOutData.length` (visible in the second conjunct, which unfolds
`blockAt`), and every result produced during step `j` carries that
mod-reduced index, not the raw step counter, as its sequence index. -/
theorem benchmark_round_robin_mod_index (env : BenchEnv) (flags : Nat)
    (inOutData : List (List InferenceInOut)) (maxCount : Nat) (timeout : ℚ)
    (hne : inOutData ≠ []) (hgood : GoodEnv env flags inOutData) :
    benchmark env inOutData maxCount timeout flags =
      Except.ok (true, blocksFrom env flags inOutData 0
        (execSteps env inOutData timeout maxCount 0)) ∧
    (∀ j : Nat, blockAt env flags inOutData j =
      seqBlock env flags (j % inOutData.length) (entriesBefore inOutData j) 0
        (inOutData.getD (j % inOutData.length) [])) ∧
    (∀ (j : Nat) (r : InferenceResult), r ∈ blockAt env flags inOutData j →
      r.inputOutputSequenceIndex = j % inOutData.length) := by
  refine ⟨benchmark_good env flags inOutData maxCount timeout hne hgood,
    fun j => rfl, ?_⟩
  intro j r hr
  unfold blockAt at hr
  exact seqBlock_mem_seqIdx env flags (j % inOutData.length) _ _ _ r hr

/-- Witness for C4: `maxSteps = 5` over two sequences of lengths 2 and 3 —
the run succeeds with the round-robin blocks, a result of even step 0 is
tagged 0 and a result of odd step 1 is tagged `1 mod 2 = 1`. -/
theorem benchmark_round_robin_mod_index_witness :
    benchmark envW [[entryW, entryW], [entryW, entryW, entryW]] 5 100 0 =
      Except.ok (true,
        blocksFrom envW 0 [[entryW, entryW], [entryW, entryW, entryW]] 0
          (execSteps envW [[entryW, entryW], [entryW, entryW, entryW]] 100 5 0)) ∧
    (mkResult envW 0 0 0 0 entryW).inputOutputSequenceIndex = 0 ∧
    (mkResult envW 0 1 2 0 entryW).inputOutputSequenceIndex = 1 :=
  have h := benchmark_round_robin_mod_index envW 0
    [[entryW, entryW], [entryW, entryW, entryW]] 5 100 (by simp)
    (by
      intro c seq hseq
      simp only [List.mem_cons, List.not_mem_nil, or_false] at hseq
      rcases hseq with h1 | h1 <;> subst h1 <;>
        exact EntriesOk_entryW envW 0 (fun _ => rfl) (fun _ => rfl) _ _
          (by intro d hd; simpa using hd))
  ⟨h.1,
   h.2.2 0 (mkResult envW 0 0 0 0 entryW)
     (by simp [blockAt, seqBlock, entriesBefore, seqLenAt]),
   h.2.2 1 (mkResult envW 0 1 2 0 entryW)
     (by simp [blockAt, seqBlock, entriesBefore, seqLenAt])⟩

/-- C5: with a single sequence of length `L` and no timeout ever exceeded, a
failure-free `benchmark` over `maxCount ≥ 1` steps returns success with
exactly `maxCount × L` results, laid out step-then-entry: the result at
position `j·L + p` has sequence index 0 and entry index `p`, its position
within the sequence. -/
theorem benchmark_single_sequence_results (env : BenchEnv) (flags : Nat)
    (s : List InferenceInOut) (maxCount : Nat) (timeout : ℚ)
    (_hmax : 1 ≤ maxCount) (hgood : GoodEnv env flags [s])
    (htime : ∀ j : Nat, totalAfter env [s] j ≤ timeout) :
    benchmark env [s] maxCount timeout flags =
      Except.ok (true, blocksFrom env flags [s] 0 maxCount) ∧
    (blocksFrom env flags [s] 0 maxCount).length = maxCount * s.length ∧
    (∀ (j p : Nat), j < maxCount → p < s.length →
      ((blocksFrom env flags [s] 0 maxCount).getD (j * s.length + p)
        default).inputOutputSequenceIndex = 0 ∧
      ((blocksFrom env flags [s] 0 maxCount).getD (j * s.length + p)
        default).inputOutputIndex = p) := by
  have hK : execSteps env [s] timeout maxCount 0 = maxCount :=
    execSteps_eq_fuel env [s] timeout htime maxCount 0
  have h1 := benchmark_good env flags [s] maxCount timeout (by simp) hgood
  rw [hK] at h1
  refine ⟨h1, blocksFrom_single_length env flags s maxCount 0, ?_⟩
  intro j p hj hp
  rw [blocksFrom_single_getD env flags s maxCount 0 j p hj hp, blockAt_single]
  have h2 := seqBlock_getD env flags 0 s (entriesBefore [s] (0 + j)) 0 p hp
  exact ⟨h2.1, by rw [h2.2]; omega⟩

/-- Witness for C5: three steps over one sequence of two entries, zero-cost
invocations so the timeout is never hit — six results, and the one at
position 1·2+1 has sequence index 0 and entry index 1. -/
theorem benchmark_single_sequence_results_witness :
    benchmark envW0 [[entryW, entryW]] 3 1 0 =
      Except.ok (true, blocksFrom envW0 0 [[entryW, entryW]] 0 3) ∧
    (blocksFrom envW0 0 [[entryW, entryW]] 0 3).length = 3 * 2 ∧
    ((blocksFrom envW0 0 [[entryW, entryW]] 0 3).getD (1 * 2 + 1)
      default).inputOutputSequenceIndex = 0 ∧
    ((blocksFrom envW0 0 [[entryW, entryW]] 0 3).getD (1 * 2 + 1)
      default).inputOutputIndex = 1 :=
  have h := benchmark_single_sequence_results envW0 0 [entryW, entryW] 3 1
    (by omega)
    (by
      intro c seq hseq
      simp only [List.mem_singleton] at hseq
      subst hseq
      exact EntriesOk_entryW envW0 0 (fun _ => rfl) (fun _ => rfl) _ _
        (by intro d hd; simpa using hd))
    (fun j => by rw [totalAfter_zero_of envW0 _ (fun n => rfl) j]; norm_num)
  ⟨h.1, h.2.1, (h.2.2 1 1 (by omega) (by simp)).1, (h.2.2 1 1 (by omega) (by simp)).2⟩

/-- C6: `getOutputError` fails fatally — `FATAL` log + assert terminating the
benchmark, modelled as `Except.error` — whenever the expected length differs
from the produced output tensor's byte count, and likewise when the output
element type is neither uint8 nor float32; the third conjunct shows a length
mismatch inside `benchmark` surfaces as that fatal condition, not as a
silently-wrong result. -/
theorem getOutputError_fatal_contract (t : Tensor) (e : ByteBuffer) (len : Nat)
    (r : InferenceResult) :
    (t.bytes ≠ len →
      getOutputError t e len r = Except.error Fatal.wrongOutputSize) ∧
    (t.bytes = len → t.ttype = TfLiteType.other →
      getOutputError t e len r = Except.error Fatal.unsupportedOutputType) ∧
    (∀ (env : BenchEnv) (d : InferenceInOut) (rest : List InferenceInOut)
        (more : List (List InferenceInOut)) (maxCount : Nat) (timeout : ℚ)
        (flags : Nat),
      d.input.isSome = true ∨ d.createInputOk = true →
      env.runOk 0 = true →
      flags &&& FLAG_IGNORE_GOLDEN_OUTPUT = 0 →
      (env.outTensor 0).bytes ≠ d.output_size →
      1 ≤ maxCount →
      benchmark env ((d :: rest) :: more) maxCount timeout flags =
        Except.error Fatal.wrongOutputSize) := by
  refine ⟨?_, ?_, ?_⟩
  · intro hb
    unfold getOutputError
    rw [if_pos hb]
  · intro hb ht
    unfold getOutputError
    rw [if_neg (by simp [hb]), ht]
  · intro env d rest more maxCount timeout flags hin hrun hflag hbytes hmax
    obtain ⟨m, rfl⟩ : ∃ m, maxCount = m + 1 := ⟨maxCount - 1, by omega⟩
    have herr : getOutputError (env.outTensor 0) d.output d.output_size
        ⟨env.invTime 0, 0, 0, [], 0, 0⟩ = Except.error Fatal.wrongOutputSize := by
      unfold getOutputError
      rw [if_pos hbytes]
    have hrs := runSequence_cons_fatal env flags 0 d rest 0 ⟨0, [], 0⟩
      Fatal.wrongOutputSize hin hrun hflag herr
    unfold benchmark
    rw [if_neg (by simp)]
    simp only [benchLoop, Nat.zero_mod, List.getD_cons_zero]
    rw [hrs]

/-- Witness for C6: a one-byte uint8 tensor against expected length 2 is the
length fatal; an unsupported element type is the type fatal; `benchmark` on
an entry with mismatched expected length returns the fatal condition. -/
theorem getOutputError_fatal_contract_witness :
    getOutputError ⟨TfLiteType.uint8, 1, [4], []⟩ ⟨[4, 4], []⟩ 2 default =
      Except.error Fatal.wrongOutputSize ∧
    getOutputError ⟨TfLiteType.other, 1, [4], []⟩ ⟨[4], []⟩ 1 default =
      Except.error Fatal.unsupportedOutputType ∧
    benchmark envW [[entryWrongLen]] 1 100 0 =
      Except.error Fatal.wrongOutputSize :=
  ⟨(getOutputError_fatal_contract ⟨TfLiteType.uint8, 1, [4], []⟩ ⟨[4, 4], []⟩ 2
      default).1 (by decide),
   (getOutputError_fatal_contract ⟨TfLiteType.other, 1, [4], []⟩ ⟨[4], []⟩ 1
      default).2.1 rfl rfl,
   (getOutputError_fatal_contract ⟨TfLiteType.uint8, 1, [4], []⟩ ⟨[4], []⟩ 1
      default).2.2 envW entryWrongLen [] [] 1 100 0 (Or.inl rfl) rfl rfl
      (by decide) (by omega)⟩

/-- C7: whenever `benchmark` returns (successfully or not) with the
ignore-golden-output flag set, every returned result has
`meanSquareError = 0` and `maxSingleError = 0`, regardless of the output
tensor contents or expected data — error computation was skipped and the
zero-initialised fields survive. -/
theorem benchmark_ignore_golden_zero_errors (env : BenchEnv)
    (inOutData : List (List InferenceInOut)) (maxCount : Nat) (timeout : ℚ)
    (flags : Nat) (b : Bool) (res : List InferenceResult)
    (hflag : flags &&& FLAG_IGNORE_GOLDEN_OUTPUT ≠ 0)
    (hrun : benchmark env inOutData maxCount timeout flags = Except.ok (b, res)) :
    ∀ r ∈ res, r.meanSquareError = 0 ∧ r.maxSingleError = 0 :=
  benchmark_ok_inv _ env inOutData maxCount timeout flags b res
    (fun s c i data => mkResult_ignore env flags s c i data hflag) hrun

/-- Witness for C7: in a concrete run with flags = ignore-golden-output, the
result pushed for the only entry has zero error fields, even though no
comparison against the expected output ever happened. -/
theorem benchmark_ignore_golden_zero_errors_witness :
    (mkResult envW 1 0 0 0 entryW).meanSquareError = 0 ∧
    (mkResult envW 1 0 0 0 entryW).maxSingleError = 0 :=
  have hK : execSteps envW [[entryW]] 100 1 0 = 1 := by
    by_cases h : totalAfter envW [[entryW]] 1 > 100 <;> simp [execSteps, h]
  benchmark_ignore_golden_zero_errors envW [[entryW]] 1 100 1 true
    (blocksFrom envW 1 [[entryW]] 0 (execSteps envW [[entryW]] 100 1 0))
    (by decide)
    (benchmark_good envW 1 [[entryW]] 1 100 (by simp)
      (by
        intro c seq hseq
        simp only [List.mem_singleton] at hseq
        subst hseq
        exact EntriesOk_entryW envW 1 (fun _ => rfl) (fun _ => rfl) _ _
          (by intro d hd; simpa using hd)))
    (mkResult envW 1 0 0 0 entryW)
    (by rw [hK]; simp [blocksFrom, blockAt, seqBlock, entriesBefore])

/-- C8: whenever `benchmark` returns with the discard-inference-output flag
set, every returned result has an empty captured-output buffer; and the
toggle is independent of ignore-golden-output: with the same flags, when the
ignore bit is clear, the per-entry result still carries exactly the error
fields `getOutputError` computed. -/
theorem benchmark_discard_output_empty (env : BenchEnv)
    (inOutData : List (List InferenceInOut)) (maxCount : Nat) (timeout : ℚ)
    (flags : Nat) (b : Bool) (res : List InferenceResult)
    (hflag : flags &&& FLAG_DISCARD_INFERENCE_OUTPUT ≠ 0)
    (hrun : benchmark env inOutData maxCount timeout flags = Except.ok (b, res)) :
    (∀ r ∈ res, r.inferenceOutput = []) ∧
    (flags &&& FLAG_IGNORE_GOLDEN_OUTPUT = 0 →
      ∀ (s c i : Nat) (d : InferenceInOut) (r' : InferenceResult),
        getOutputError (env.outTensor c) d.output d.output_size
          ⟨env.invTime c, 0, 0, [], s, i⟩ = Except.ok r' →
        (mkResult env flags s c i d).meanSquareError = r'.meanSquareError ∧
        (mkResult env flags s c i d).maxSingleError = r'.maxSingleError) := by
  constructor
  · exact benchmark_ok_inv _ env inOutData maxCount timeout flags b res
      (fun s c i data => mkResult_discard env flags s c i data hflag) hrun
  · intro hig s c i d r' hr'
    simp only [mkResult, if_pos hig, hr', if_neg hflag]
    exact ⟨trivial, trivial⟩

/-- Witness for C8: a concrete run with flags = discard-inference-output —
every result's captured buffer is empty, while the error fields are still the
ones `getOutputError` computed (here zero, since produced equals expected). -/
theorem benchmark_discard_output_empty_witness :
    (mkResult envW 2 0 0 0 entryW).inferenceOutput = [] ∧
    (mkResult envW 2 0 0 0 entryW).meanSquareError = 0 ∧
    (mkResult envW 2 0 0 0 entryW).maxSingleError = 0 :=
  have hok : getOutputError (envW.outTensor 0) entryW.output entryW.output_size
      ⟨envW.invTime 0, 0, 0, [], 0, 0⟩ = Except.ok ⟨1, 0, 0, [], 0, 0⟩ := by
    simp [getOutputError, accumulateError, envW, entryW]
  have hK : execSteps envW [[entryW]] 100 1 0 = 1 := by
    by_cases h : totalAfter envW [[entryW]] 1 > 100 <;> simp [execSteps, h]
  have h := benchmark_discard_output_empty envW [[entryW]] 1 100 2 true
    (blocksFrom envW 2 [[entryW]] 0 (execSteps envW [[entryW]] 100 1 0))
    (by decide)
    (benchmark_good envW 2 [[entryW]] 1 100 (by simp)
      (by
        intro c seq hseq
        simp only [List.mem_singleton] at hseq
        subst hseq
        exact EntriesOk_entryW envW 2 (fun _ => rfl) (fun _ => rfl) _ _
          (by intro d hd; simpa using hd)))
  ⟨h.1 (mkResult envW 2 0 0 0 entryW)
     (by rw [hK]; simp [blocksFrom, blockAt, seqBlock, entriesBefore]),
   (h.2 (by decide) 0 0 0 entryW ⟨1, 0, 0, [], 0, 0⟩ hok).1,
   (h.2 (by decide) 0 0 0 entryW ⟨1, 0, 0, [], 0, 0⟩ hok).2⟩

/-- C9: the Bool returned by `setInput` is dropped in the raw-input path of
the loop — an unsupported input tensor type makes every `setInput` call
return false, yet a run whose entries all carry raw bytes still succeeds with
all its results; in contrast a fill-callback failure aborts the whole run
with a failure return. -/
theorem setInput_failure_ignored_callback_aborts :
    (∀ (bytes : List Nat) (len : Nat),
      setInput TfLiteType.other bytes len = false) ∧
    (∀ (env : BenchEnv) (flags : Nat) (inOutData : List (List InferenceInOut))
        (maxCount : Nat) (timeout : ℚ),
      inOutData ≠ [] → GoodEnv env flags inOutData →
      env.inputType = TfLiteType.other →
      (∀ seq ∈ inOutData, ∀ d ∈ seq, d.input.isSome = true) →
      benchmark env inOutData maxCount timeout flags =
        Except.ok (true, blocksFrom env flags inOutData 0
          (execSteps env inOutData timeout maxCount 0))) ∧
    (∀ (env : BenchEnv) (flags : Nat) (d : InferenceInOut)
        (rest : List InferenceInOut) (more : List (List InferenceInOut))
        (maxCount : Nat) (timeout : ℚ),
      d.input = none → d.createInputOk = false → 1 ≤ maxCount →
      benchmark env ((d :: rest) :: more) maxCount timeout flags =
        Except.ok (false, [])) := by
  refine ⟨fun bytes len => rfl, ?_, ?_⟩
  · intro env flags inOutData maxCount timeout hne hgood _htype _hraw
    exact benchmark_good env flags inOutData maxCount timeout hne hgood
  · intro env flags d rest more maxCount timeout h1 h2 hmax
    obtain ⟨m, rfl⟩ : ∃ m, maxCount = m + 1 := ⟨maxCount - 1, by omega⟩
    have hrs := runSequence_cons_inputFail env flags 0 d rest 0 ⟨0, [], 0⟩ h1 h2
    unfold benchmark
    rw [if_neg (by simp)]
    simp only [benchLoop, Nat.zero_mod, List.getD_cons_zero]
    rw [hrs]

/-- Witness for C9: `setInput` on the unsupported type fails; a raw-input run
under an environment whose input tensor type is unsupported still succeeds;
an entry with a failing fill callback makes `benchmark` return failure with
no results. -/
theorem setInput_failure_ignored_callback_aborts_witness :
    setInput TfLiteType.other [2] 1 = false ∧
    benchmark envBadInput [[entryW]] 1 100 0 =
      Except.ok (true, blocksFrom envBadInput 0 [[entryW]] 0
        (execSteps envBadInput [[entryW]] 100 1 0)) ∧
    benchmark envW [[entryFail]] 1 100 0 = Except.ok (false, []) :=
  ⟨setInput_failure_ignored_callback_aborts.1 [2] 1,
   setInput_failure_ignored_callback_aborts.2.1 envBadInput 0 [[entryW]] 1 100
     (by simp)
     (by
       intro c seq hseq
       simp only [List.mem_singleton] at hseq
       subst hseq
       exact EntriesOk_entryW envBadInput 0 (fun _ => rfl) (fun _ => rfl) _ _
         (by intro d hd; simpa using hd))
     rfl
     (by
       intro seq hseq d hd
       simp only [List.mem_singleton] at hseq
       subst hseq
       simp only [List.mem_singleton] at hd
       subst hd
       rfl),
   setInput_failure_ignored_callback_aborts.2.2 envW 0 entryFail [] [] 1 100
     rfl rfl (by omega)⟩

/-- C10: when the benchmark aborts with a failure return because an entry's
fill callback or its inference invocation failed, the results already pushed
for the earlier entries of the sequence are exactly what the caller keeps
(no rollback), and no record exists for the failing entry: the returned
collection is precisely the block of the preceding entries. -/
theorem benchmark_abort_keeps_prior_results (env : BenchEnv) (flags : Nat)
    (timeout : ℚ) (maxCount : Nat) (good : List InferenceInOut)
    (d : InferenceInOut) (rest : List InferenceInOut)
    (more : List (List InferenceInOut))
    (hgood : EntriesOk env flags 0 good)
    (hfail : (d.input = none ∧ d.createInputOk = false) ∨
      ((d.input.isSome = true ∨ d.createInputOk = true) ∧
        env.runOk good.length = false))
    (hmax : 1 ≤ maxCount) :
    benchmark env ((good ++ d :: rest) :: more) maxCount timeout flags =
      Except.ok (false, seqBlock env flags 0 0 0 good) ∧
    (seqBlock env flags 0 0 0 good).length = good.length := by
  obtain ⟨m, rfl⟩ : ∃ m, maxCount = m + 1 := ⟨maxCount - 1, by omega⟩
  refine ⟨?_, seqBlock_length env flags 0 good 0 0⟩
  have happ := runSequence_append env flags 0 good (d :: rest) 0 ⟨0, [], 0⟩ hgood
  have hfail' : runSequence env flags 0 (d :: rest) (0 + good.length)
      ⟨0 + good.length, [] ++ seqBlock env flags 0 0 0 good,
        0 + blockTime env 0 good⟩ =
      Except.ok (false, ⟨0 + good.length, [] ++ seqBlock env flags 0 0 0 good,
        0 + blockTime env 0 good⟩) := by
    rcases hfail with ⟨h1, h2⟩ | ⟨hin, hrun⟩
    · exact runSequence_cons_inputFail env flags 0 d rest _ _ h1 h2
    · exact runSequence_cons_runFail env flags 0 d rest _ _ hin
        (by rw [Nat.zero_add]; exact hrun)
  unfold benchmark
  rw [if_neg (by simp)]
  simp only [benchLoop, Nat.zero_mod, List.getD_cons_zero]
  rw [happ, hfail']
  simp

/-- Witness for C10: first entry succeeds, second invocation fails — the run
returns failure with exactly the one result of the first entry and none for
the failing one. -/
theorem benchmark_abort_keeps_prior_results_witness :
    benchmark envRunFail1 [[entryW, entryW]] 1 100 0 =
      Except.ok (false, seqBlock envRunFail1 0 0 0 0 [entryW]) ∧
    (seqBlock envRunFail1 0 0 0 0 [entryW]).length = 1 :=
  benchmark_abort_keeps_prior_results envRunFail1 0 100 1 [entryW] entryW [] []
    ⟨Or.inl rfl, rfl, Or.inr ⟨rfl, Or.inl rfl⟩, trivial⟩
    (Or.inr ⟨Or.inl rfl, rfl⟩) (by omega)

end RunTflite
